import Mathlib

/-!
Shallow embedding of `jerry.py` (a small JSON-like tokenizer and parser)
and proofs about it.

Conventions of the embedding:
* Python `str` input is modelled as `List Char` wrapped in a cursor `Stream`,
  exactly mirroring the source's `Stream` class (`_data`, `_cursor`,
  `_end = len(data)`).  The cursor starts at 0 and is only ever incremented,
  so it is a `Nat`; the source's `self._cursor < 0` test in `peek` can never
  fire and is therefore vacuous here (a comment marks the spot).
* Python exceptions are modelled by `Except Err`.  Each distinct exception
  site gets its own `Err` constructor: `indexError` is a raised
  `IndexError` (out-of-bounds read), `attributeError` is
  `None.isnumeric()` (`AttributeError`), `typeError` is subscripting or
  slicing a non-subscriptable value such as `None[0]` (`TypeError`), and
  the `ValueError`s raised by the source get one structured constructor per
  `raise` site.
* Python `float(text)` conversion is kept as the literal text (constructor
  `Tok.float`): IEEE-754 semantics are not modelled and no claim inspects a
  float's numeric value.
* `str.isnumeric` / `str.isspace` are modelled on the ASCII fragment
  (decimal digits, ASCII whitespace); no claim involves other Unicode
  characters.
* Loops are modelled by fuel recursion (structural on `Nat`) so that every
  definition computes by `rfl` / `decide`.  Every top-level wrapper passes
  fuel that is provably sufficient (each loop iteration consumes input);
  the artificial `Err.fuel` value never surfaces for those wrappers.
-/

namespace Jerry

/-- Token, as produced by the source tokenizer: the Python token list mixes
one-character punctuation strings, quoted string literals, ints and floats.
A float is kept as its literal text (see the header comment). -/
inductive Tok where
  | str (s : String)
  | int (n : Int)
  | float (lit : String)
deriving DecidableEq, Repr

/-- Errors: one constructor per distinct Python exception site. -/
inductive Err where
  | indexError
  | attributeError
  | typeError
  | charMismatch (expected actual : Char)
  | tokMismatch (expected actual : Tok)
  | unexpectedChar (c : Char) (pos : Nat)
  | invalidNumber (pos : Nat)
  | castError (s : String)
  | topLevelUnexpected
  | unexpectedValue (t : Tok)
  | trailingTokens (t : Tok)
  | fuel
deriving DecidableEq, Repr

/-- Cursor reader over an ordered sequence, mirroring the source's
`Stream` class: wrapped data, cursor position, and the end index
(`_end = data.length`, kept implicit here). -/
structure Stream (α : Type) where
  data : List α
  cursor : Nat
deriving Repr

/-- Source `Stream.peek` (lines 38-49): returns the element at the cursor,
or `none` when the cursor is at or past the end.  The source also returns
`None` when `_cursor < 0`, which cannot happen for a `Nat` cursor. -/
def Stream.peek {α : Type} (s : Stream α) : Option α :=
  if h : s.cursor < s.data.length then some (s.data.get ⟨s.cursor, h⟩) else none

/-- Source `Stream.next` (lines 51-64): `self._data[self._cursor]` raises
`IndexError` when the cursor is at or past the end (a negative index can
not occur for a `Nat` cursor), otherwise returns the element and advances
the cursor by one. -/
def Stream.next {α : Type} (s : Stream α) : Except Err (α × Stream α) :=
  if h : s.cursor < s.data.length then
    .ok (s.data.get ⟨s.cursor, h⟩, { s with cursor := s.cursor + 1 })
  else
    .error .indexError

/-- Python `str.isspace` restricted to ASCII whitespace. -/
def py_isspace (c : Char) : Bool :=
  c == ' ' || c == '\t' || c == '\n' || c == '\r' || c == '\x0b' || c == '\x0c'

/-- Python `str.isnumeric` restricted to ASCII decimal digits. -/
def py_isnumeric (c : Char) : Bool :=
  c.isDigit

/-- Python `char in "\x7b\x7d[]:,"` membership test from `tokenize`. -/
def isPunct (c : Char) : Bool :=
  c == '\x7b' || c == '\x7d' || c == '[' || c == ']' || c == ':' || c == ','

/-- Python `int(text)` on the digit strings accumulated by `tokenize_num`:
succeeds on a nonempty all-digit string, otherwise raises `ValueError`
(modelled as `castError`). -/
def pyInt (s : String) : Except Err Int :=
  if s ≠ "" ∧ s.toList.all Char.isDigit then
    .ok (Int.ofNat (s.toList.foldl (fun a c => a * 10 + (c.toNat - '0'.toNat)) 0))
  else
    .error (.castError s)

/-- Python `s[1:-1]`: characters from index 1 up to (exclusive) the last.
Empty result whenever the string has at most two characters. -/
def pySlice (s : String) : String :=
  String.mk ((s.toList.drop 1).dropLast)

/-- Source `consume` (lines 87-102) at character streams: `stream.next()`
(raising `IndexError` when exhausted), then `ValueError` when the element
does not match the expected one. -/
def consume (expected : Char) (st : Stream Char) : Except Err (Stream Char) :=
  match st.next with
  | .error e => .error e
  | .ok (actual, st1) =>
      if actual = expected then .ok st1 else .error (.charMismatch expected actual)

/-- Loop body of source `skip_whitespace` (lines 67-84), fuel-indexed:
peek; stop at end of input or at the first non-whitespace character,
otherwise consume and continue. -/
def skipWsF : Nat → Stream Char → Stream Char
  | 0, st => st
  | n + 1, st =>
      match st.peek with
      | none => st
      | some c =>
          if py_isspace c then
            match st.next with
            | .ok (_, st1) => skipWsF n st1
            | .error _ => st  -- unreachable: peek returned a value
          else st

/-- Source `skip_whitespace`: the loop with always-sufficient fuel
(each iteration advances the cursor). -/
def skip_whitespace (st : Stream Char) : Stream Char :=
  skipWsF (st.data.length + 1) st

/-- Loop body of source `tokenize_str` (lines 125-131), fuel-indexed:
`stream.next()` (raising `IndexError` at end of input), append, stop after
appending a quote. -/
def tokStrGoF : Nat → List Char → Stream Char → Except Err (String × Stream Char)
  | 0, _, _ => .error .fuel
  | n + 1, acc, st =>
      match st.next with
      | .error e => .error e
      | .ok (c, st1) =>
          if c = '"' then .ok (String.mk (acc ++ [c]), st1)
          else tokStrGoF n (acc ++ [c]) st1

/-- Source `tokenize_str` (lines 109-132): buffer seeded with a quote,
consume the opening quote, then scan to (and including) the closing quote. -/
def tokenize_str (st : Stream Char) : Except Err (String × Stream Char) :=
  match consume '"' st with
  | .error e => .error e
  | .ok st1 => tokStrGoF (st.data.length + 1) ['"'] st1

/-- Loop body of source `tokenize_num` (lines 149-163), fuel-indexed.
`stream.peek()` yielding `None` makes the source call `None.isnumeric()`,
an `AttributeError`.  A digit or a first dot is consumed and appended;
a second dot raises `ValueError` (`invalidNumber`) at the current cursor;
anything else ends the scan. -/
def tokNumGoF : Nat → List Char → Bool → Stream Char →
    Except Err ((List Char × Bool) × Stream Char)
  | 0, _, _, _ => .error .fuel
  | n + 1, acc, isFloat, st =>
      match st.peek with
      | none => .error .attributeError
      | some c =>
          if py_isnumeric c then
            match st.next with
            | .ok (c1, st1) => tokNumGoF n (acc ++ [c1]) isFloat st1
            | .error e => .error e  -- unreachable: peek returned a value
          else if c = '.' then
            if isFloat then .error (.invalidNumber st.cursor)
            else
              match st.next with
              | .ok (c1, st1) => tokNumGoF n (acc ++ [c1]) true st1
              | .error e => .error e  -- unreachable: peek returned a value
          else .ok ((acc, isFloat), st)

/-- Source `tokenize_num` (lines 135-170): run the scan, then convert the
accumulated text with `float` (kept literal) or `int`. -/
def tokenize_num (st : Stream Char) : Except Err (Tok × Stream Char) :=
  match tokNumGoF (st.data.length + 1) [] false st with
  | .error e => .error e
  | .ok ((num, isFloat), st1) =>
      let joined := String.mk num
      if isFloat then .ok (.float joined, st1)
      else
        match pyInt joined with
        | .error e => .error e
        | .ok i => .ok (.int i, st1)

/-- Loop body of source `tokenize` (lines 185-215), fuel-indexed: skip
whitespace; stop at end of input (the source's `_cursor >= _end` test is
equivalent to `peek = none` for a `Nat` cursor); dispatch on the peeked
character; append the token and loop. -/
def tokenizeF : Nat → Stream Char → Except Err (List Tok)
  | 0, _ => .error .fuel
  | n + 1, st =>
      let st1 := skip_whitespace st
      match st1.peek with
      | none => .ok []
      | some c =>
          let tokRes : Except Err (Tok × Stream Char) :=
            if isPunct c then
              match st1.next with
              | .ok (c1, st2) => .ok (.str (String.mk [c1]), st2)
              | .error e => .error e  -- unreachable: peek returned a value
            else if c = '"' then
              match tokenize_str st1 with
              | .error e => .error e
              | .ok (s, st2) => .ok (.str s, st2)
            else if py_isnumeric c then
              tokenize_num st1
            else
              .error (.unexpectedChar c st1.cursor)
          match tokRes with
          | .error e => .error e
          | .ok (t, st2) =>
              match tokenizeF n st2 with
              | .error e => .error e
              | .ok ts => .ok (t :: ts)

/-- Source `tokenize` (lines 173-218) on a whole input string: every loop
iteration consumes at least one character, so `length + 1` fuel suffices. -/
def tokenize (s : String) : Except Err (List Tok) :=
  tokenizeF (s.toList.length + 1) ⟨s.toList, 0⟩

/-!
Parser.  The source reuses the same `Stream` class over the token list.
The parser never reads the cursor except through `peek` / `next` /
`consume` and one end-of-input comparison (`_cursor < _end`, line 374), so
a token stream is represented here by its remaining suffix
(`data.drop cursor`): `peek` becomes `head?`, `next` becomes uncons, the
end-of-input test becomes "the suffix is nonempty".  The cursor value
itself only ever reaches the text of two error messages, which are
modelled by structured error constructors without the index.
-/

/-- Parsed value tree.  Python's dict (insertion-ordered, string keys)
is an insertion-ordered association list. -/
inductive Val where
  | obj (entries : List (String × Val))
  | arr (elems : List Val)
  | str (s : String)
  | int (n : Int)
  | float (lit : String)

/-- Python `dict_[key] = value` on an insertion-ordered dict: overwrite in
place when the key is present, else append. -/
def dictInsert (d : List (String × Val)) (k : String) (v : Val) :
    List (String × Val) :=
  match d with
  | [] => [(k, v)]
  | (k0, v0) :: rest =>
      if k0 = k then (k, v) :: rest else (k0, v0) :: dictInsert rest k v

/-- Source `parse_str` (lines 225-235): `stream.next()[1:-1]`.  `next` on
an exhausted stream raises `IndexError`; slicing a non-string token (an
int or float) raises `TypeError`. -/
def parse_str (ts : List Tok) : Except Err (String × List Tok) :=
  match ts with
  | [] => .error .indexError
  | .str s :: rest => .ok (pySlice s, rest)
  | _ :: _ => .error .typeError

/-- Source `consume` (lines 87-102) at token streams. -/
def consumeTok (expected : Tok) (ts : List Tok) : Except Err (List Tok) :=
  match ts with
  | [] => .error .indexError
  | actual :: rest =>
      if actual = expected then .ok rest
      else .error (.tokMismatch expected actual)

/-- The five mutually recursive parsing routines, packaged so that the
recursion is a single structural recursion on fuel (and hence computes by
`rfl`): `value` is `parse_value`, `dict` is `parse_dict`, `dictLoop` its
`while True` body, `list` is `parse_list`, `listLoop` its `while` body. -/
structure ParserPack where
  value : List Tok → Except Err (Val × List Tok)
  dict : List Tok → Except Err (List (String × Val) × List Tok)
  dictLoop : List (String × Val) → List Tok →
    Except Err (List (String × Val) × List Tok)
  list : List Tok → Except Err (List Val × List Tok)
  listLoop : List Val → List Tok → Except Err (List Val × List Tok)

/-- Fuel-indexed parser. Each field mirrors its source function line by
line; comments inside give the correspondence. -/
def parsersF : Nat → ParserPack
  | 0 =>
      { value := fun _ => .error .fuel
        dict := fun _ => .error .fuel
        dictLoop := fun _ _ => .error .fuel
        list := fun _ => .error .fuel
        listLoop := fun _ _ => .error .fuel }
  | n + 1 =>
      let p := parsersF n
      { -- Source `parse_value` (lines 256-283): peek, then dispatch.
        -- A `None` peek falls through every test down to `token[0]`,
        -- which raises `TypeError`; an int or float token is returned via
        -- `stream.next()`; a string token is tested on its first
        -- character (`IndexError` on the empty string).
        value := fun ts =>
          match ts.head? with
          | none => .error .typeError
          | some t =>
              if t = .str "\x7b" then
                match p.dict ts with
                | .error e => .error e
                | .ok (d, rest) => .ok (.obj d, rest)
              else if t = .str "[" then
                match p.list ts with
                | .error e => .error e
                | .ok (l, rest) => .ok (.arr l, rest)
              else
                match t with
                | .int i => .ok (.int i, ts.tail)
                | .float f => .ok (.float f, ts.tail)
                | .str s =>
                    if s = "" then .error .indexError
                    else if s.front = '"' then
                      match parse_str ts with
                      | .error e => .error e
                      | .ok (k, rest) => .ok (.str k, rest)
                    else .error (.unexpectedValue (.str s))
        -- Source `parse_dict` (lines 286-317): consume `\x7b`, run the
        -- key/value loop, consume `\x7d`.
        dict := fun ts =>
          match consumeTok (.str "\x7b") ts with
          | .error e => .error e
          | .ok ts1 =>
              match p.dictLoop [] ts1 with
              | .error e => .error e
              | .ok (d, ts2) =>
                  match consumeTok (.str "\x7d") ts2 with
                  | .error e => .error e
                  | .ok ts3 => .ok (d, ts3)
        -- The `while True` body of `parse_dict` (lines 302-312):
        -- `parse_str` key, consume `:`, `parse_value`, insert; continue
        -- after a comma, else break.
        dictLoop := fun acc ts =>
          match parse_str ts with
          | .error e => .error e
          | .ok (key, ts1) =>
              match consumeTok (.str ":") ts1 with
              | .error e => .error e
              | .ok ts2 =>
                  match p.value ts2 with
                  | .error e => .error e
                  | .ok (v, ts3) =>
                      let acc1 := dictInsert acc key v
                      if ts3.head? = some (.str ",") then p.dictLoop acc1 ts3.tail
                      else .ok (acc1, ts3)
        -- Source `parse_list` (lines 320-347): consume `[`, run the
        -- element loop, consume `]`.
        list := fun ts =>
          match consumeTok (.str "[") ts with
          | .error e => .error e
          | .ok ts1 =>
              match p.listLoop [] ts1 with
              | .error e => .error e
              | .ok (l, ts2) =>
                  match consumeTok (.str "]") ts2 with
                  | .error e => .error e
                  | .ok ts3 => .ok (l, ts3)
        -- The `while stream.peek() != "]"` body of `parse_list`
        -- (lines 336-342): note `None != "]"` is true, so an exhausted
        -- stream enters the body; `break` (after a non-comma) skips the
        -- `!= "]"` re-check, a comma loops back to it.
        listLoop := fun acc ts =>
          if ts.head? = some (.str "]") then .ok (acc, ts)
          else
            match p.value ts with
            | .error e => .error e
            | .ok (v, ts1) =>
                let acc1 := acc ++ [v]
                if ts1.head? = some (.str ",") then p.listLoop acc1 ts1.tail
                else .ok (acc1, ts1) }

/-- Fuel bound used by all parser entry points: generous enough for any
input (each parse step consumes a token at least every three calls). -/
def parseFuel (ts : List Tok) : Nat :=
  2 * ts.length + 2

def parseValueF (n : Nat) (ts : List Tok) : Except Err (Val × List Tok) :=
  (parsersF n).value ts

def parseDictF (n : Nat) (ts : List Tok) :
    Except Err (List (String × Val) × List Tok) :=
  (parsersF n).dict ts

def parseDictLoopF (n : Nat) (acc : List (String × Val)) (ts : List Tok) :
    Except Err (List (String × Val) × List Tok) :=
  (parsersF n).dictLoop acc ts

def parseListF (n : Nat) (ts : List Tok) : Except Err (List Val × List Tok) :=
  (parsersF n).list ts

def parseListLoopF (n : Nat) (acc : List Val) (ts : List Tok) :
    Except Err (List Val × List Tok) :=
  (parsersF n).listLoop acc ts

/-- Source `parse_value` with sufficient fuel. -/
def parse_value (ts : List Tok) : Except Err (Val × List Tok) :=
  parseValueF (parseFuel ts) ts

/-- Source `parse_dict` with sufficient fuel. -/
def parse_dict (ts : List Tok) : Except Err (List (String × Val) × List Tok) :=
  parseDictF (parseFuel ts) ts

/-- Source `parse_list` with sufficient fuel. -/
def parse_list (ts : List Tok) : Except Err (List Val × List Tok) :=
  parseListF (parseFuel ts) ts

/-- The dispatch part of source `parse` (lines 360-371): peek and dispatch
to `parse_dict` or `parse_list`; anything else (including an exhausted
reader) raises `ValueError`, modelled by `topLevelUnexpected`. -/
def parseTop (ts : List Tok) : Except Err (Val × List Tok) :=
  if ts.head? = some (.str "\x7b") then
    match parse_dict ts with
    | .error e => .error e
    | .ok (d, rest) => .ok (.obj d, rest)
  else if ts.head? = some (.str "[") then
    match parse_list ts with
    | .error e => .error e
    | .ok (l, rest) => .ok (.arr l, rest)
  else .error .topLevelUnexpected

/-- Source `parse` (lines 350-379): the dispatch above, after which the
token reader must be exhausted (`_cursor < _end`, i.e. a nonempty
remaining suffix, raises `ValueError` showing `stream.peek()`, modelled by
`trailingTokens`). -/
def parse (ts : List Tok) : Except Err Val :=
  match parseTop ts with
  | .error e => .error e
  | .ok (v, rest) =>
      match rest with
      | [] => .ok v
      | t :: _ => .error (.trailingTokens t)

/-- The whole pipeline of source `main` (lines 401-402):
`parse(Stream(tokenize(Stream(data))))`. -/
def parseDocument (s : String) : Except Err Val :=
  match tokenize s with
  | .error e => .error e
  | .ok toks => parse toks

/-!
Equation lemmas (all by `rfl`) exposing one unfolding step of each
fuel-indexed function, and small inversion facts about the atomic
stream operations.
-/

/-- Bridge between the two stream representations: `peek` on the cursor
reader is exactly the head of the remaining suffix `data.drop cursor`,
which is the representation the parser section uses. -/
theorem peek_eq_head_drop {α : Type} (s : Stream α) :
    s.peek = (s.data.drop s.cursor).head? := by
  unfold Stream.peek
  by_cases hc : s.cursor < s.data.length
  · rw [dif_pos hc]
    rw [List.head?_drop]
    rw [List.getElem?_eq_getElem hc]
    rfl
  · rw [dif_neg hc]
    rw [List.drop_eq_nil_of_le (by omega)]
    rfl

theorem parseValueF_zero (ts : List Tok) : parseValueF 0 ts = .error .fuel := rfl

theorem parseDictF_zero (ts : List Tok) : parseDictF 0 ts = .error .fuel := rfl

theorem parseDictLoopF_zero (acc : List (String × Val)) (ts : List Tok) :
    parseDictLoopF 0 acc ts = .error .fuel := rfl

theorem parseListF_zero (ts : List Tok) : parseListF 0 ts = .error .fuel := rfl

theorem parseListLoopF_zero (acc : List Val) (ts : List Tok) :
    parseListLoopF 0 acc ts = .error .fuel := rfl

theorem parseValueF_succ_nil (m : Nat) : parseValueF (m + 1) [] = .error .typeError := rfl

theorem parseValueF_succ_cons (m : Nat) (t : Tok) (ts2 : List Tok) :
    parseValueF (m + 1) (t :: ts2) =
      (if t = .str "\x7b" then
        match parseDictF m (t :: ts2) with
        | .error e => .error e
        | .ok (d, rest) => .ok (.obj d, rest)
      else if t = .str "[" then
        match parseListF m (t :: ts2) with
        | .error e => .error e
        | .ok (l, rest) => .ok (.arr l, rest)
      else
        match t with
        | .int i => .ok (.int i, ts2)
        | .float f => .ok (.float f, ts2)
        | .str s =>
            if s = "" then .error .indexError
            else if s.front = '"' then
              match parse_str (t :: ts2) with
              | .error e => .error e
              | .ok (k, rest) => .ok (.str k, rest)
            else .error (.unexpectedValue (.str s))) := rfl

theorem parseDictF_succ (m : Nat) (ts : List Tok) :
    parseDictF (m + 1) ts =
      (match consumeTok (.str "\x7b") ts with
      | .error e => .error e
      | .ok ts1 =>
          match parseDictLoopF m [] ts1 with
          | .error e => .error e
          | .ok (d, ts2) =>
              match consumeTok (.str "\x7d") ts2 with
              | .error e => .error e
              | .ok ts3 => .ok (d, ts3)) := rfl

theorem parseDictLoopF_succ (m : Nat) (acc : List (String × Val)) (ts : List Tok) :
    parseDictLoopF (m + 1) acc ts =
      (match parse_str ts with
      | .error e => .error e
      | .ok (key, ts1) =>
          match consumeTok (.str ":") ts1 with
          | .error e => .error e
          | .ok ts2 =>
              match parseValueF m ts2 with
              | .error e => .error e
              | .ok (v, ts3) =>
                  if ts3.head? = some (.str ",") then
                    parseDictLoopF m (dictInsert acc key v) ts3.tail
                  else .ok (dictInsert acc key v, ts3)) := rfl

theorem parseListF_succ (m : Nat) (ts : List Tok) :
    parseListF (m + 1) ts =
      (match consumeTok (.str "[") ts with
      | .error e => .error e
      | .ok ts1 =>
          match parseListLoopF m [] ts1 with
          | .error e => .error e
          | .ok (l, ts2) =>
              match consumeTok (.str "]") ts2 with
              | .error e => .error e
              | .ok ts3 => .ok (l, ts3)) := rfl

theorem parseListLoopF_succ (m : Nat) (acc : List Val) (ts : List Tok) :
    parseListLoopF (m + 1) acc ts =
      (if ts.head? = some (.str "]") then .ok (acc, ts)
      else
        match parseValueF m ts with
        | .error e => .error e
        | .ok (v, ts1) =>
            if ts1.head? = some (.str ",") then parseListLoopF m (acc ++ [v]) ts1.tail
            else .ok (acc ++ [v], ts1)) := rfl

theorem consumeTok_cons (e : Tok) (rest : List Tok) :
    consumeTok e (e :: rest) = .ok rest := by
  simp [consumeTok]

theorem consumeTok_ok_elim {e : Tok} {ts ts1 : List Tok}
    (h : consumeTok e ts = .ok ts1) : ts = e :: ts1 := by
  cases ts with
  | nil => exact absurd h (by simp [consumeTok])
  | cons a rest =>
      by_cases ha : a = e
      · subst ha
        rw [consumeTok_cons] at h
        simp only [Except.ok.injEq] at h
        rw [h]
      · simp [consumeTok, ha] at h

theorem parse_str_cons (s : String) (rest : List Tok) :
    parse_str (.str s :: rest) = .ok (pySlice s, rest) := rfl

theorem parse_str_ok_elim {ts ts1 : List Tok} {k : String}
    (h : parse_str ts = .ok (k, ts1)) :
    ∃ s, ts = .str s :: ts1 ∧ k = pySlice s := by
  cases ts with
  | nil => exact absurd h (by simp [parse_str])
  | cons t rest =>
      cases t with
      | str s =>
          simp only [parse_str, Except.ok.injEq, Prod.mk.injEq] at h
          exact ⟨s, by rw [h.2], h.1.symm⟩
      | int n => exact absurd h (by simp [parse_str])
      | float f => exact absurd h (by simp [parse_str])

/-- `parse_value` can never succeed on an exhausted stream (at any fuel). -/
theorem parseValueF_nil_not_ok (n : Nat) (v : Val) (rest : List Tok) :
    parseValueF n [] ≠ .ok (v, rest) := by
  cases n with
  | zero => rw [parseValueF_zero]; exact fun hh => Except.noConfusion hh
  | succ k => rw [parseValueF_succ_nil]; exact fun hh => Except.noConfusion hh

/-- Frame and fuel-monotonicity for the parser: a successful parse is
unaffected by appending further tokens after the part it consumed, and by
giving it at least as much fuel.  The loop statements additionally require
the leftover to be nonempty (the loops peek one token past the value they
parse; a successful enclosing parse always stops them at a closer). -/
theorem parse_frame_mono : ∀ n : Nat,
    (∀ m ts r val rest, n ≤ m → parseValueF n ts = .ok (val, rest) →
      parseValueF m (ts ++ r) = .ok (val, rest ++ r)) ∧
    (∀ m ts r d rest, n ≤ m → parseDictF n ts = .ok (d, rest) →
      parseDictF m (ts ++ r) = .ok (d, rest ++ r)) ∧
    (∀ m acc ts r d rest, n ≤ m → parseDictLoopF n acc ts = .ok (d, rest) →
      rest ≠ [] → parseDictLoopF m acc (ts ++ r) = .ok (d, rest ++ r)) ∧
    (∀ m ts r a rest, n ≤ m → parseListF n ts = .ok (a, rest) →
      parseListF m (ts ++ r) = .ok (a, rest ++ r)) ∧
    (∀ m acc ts r a rest, n ≤ m → parseListLoopF n acc ts = .ok (a, rest) →
      rest ≠ [] → parseListLoopF m acc (ts ++ r) = .ok (a, rest ++ r)) := by
  intro n
  induction n with
  | zero =>
      refine ⟨?_, ?_, ?_, ?_, ?_⟩
      · intro m ts r val rest _ h
        rw [parseValueF_zero] at h
        exact Except.noConfusion h
      · intro m ts r d rest _ h
        rw [parseDictF_zero] at h
        exact Except.noConfusion h
      · intro m acc ts r d rest _ h _
        rw [parseDictLoopF_zero] at h
        exact Except.noConfusion h
      · intro m ts r a rest _ h
        rw [parseListF_zero] at h
        exact Except.noConfusion h
      · intro m acc ts r a rest _ h _
        rw [parseListLoopF_zero] at h
        exact Except.noConfusion h
  | succ n ih =>
      obtain ⟨ihv, ihd, ihdl, ihl, ihll⟩ := ih
      refine ⟨?_, ?_, ?_, ?_, ?_⟩
      -- parse_value
      · intro m ts r val rest hm h
        obtain ⟨m1, rfl⟩ : ∃ m1, m = m1 + 1 := ⟨m - 1, by omega⟩
        have hm1 : n ≤ m1 := by omega
        cases ts with
        | nil =>
            rw [parseValueF_succ_nil] at h
            exact Except.noConfusion h
        | cons t ts2 =>
            rw [parseValueF_succ_cons] at h
            rw [List.cons_append, parseValueF_succ_cons]
            by_cases h1 : t = Tok.str "\x7b"
            · rw [if_pos h1] at h
              rw [if_pos h1]
              cases hd : parseDictF n (t :: ts2) with
              | error e => rw [hd] at h; simp at h
              | ok pr =>
                  obtain ⟨d, rest0⟩ := pr
                  rw [hd] at h
                  simp only [Except.ok.injEq, Prod.mk.injEq] at h
                  obtain ⟨hval, hrest⟩ := h
                  have hdd := ihd m1 (t :: ts2) r d rest0 hm1 hd
                  rw [List.cons_append] at hdd
                  rw [hdd, ← hval, ← hrest]
            · rw [if_neg h1] at h
              rw [if_neg h1]
              by_cases h2 : t = Tok.str "["
              · rw [if_pos h2] at h
                rw [if_pos h2]
                cases hl : parseListF n (t :: ts2) with
                | error e => rw [hl] at h; simp at h
                | ok pr =>
                    obtain ⟨l, rest0⟩ := pr
                    rw [hl] at h
                    simp only [Except.ok.injEq, Prod.mk.injEq] at h
                    obtain ⟨hval, hrest⟩ := h
                    have hll2 := ihl m1 (t :: ts2) r l rest0 hm1 hl
                    rw [List.cons_append] at hll2
                    rw [hll2, ← hval, ← hrest]
              · rw [if_neg h2] at h
                rw [if_neg h2]
                cases t with
                | int i =>
                    simp only [Except.ok.injEq, Prod.mk.injEq] at h
                    obtain ⟨hval, hrest⟩ := h
                    rw [← hval, ← hrest]
                | float f =>
                    simp only [Except.ok.injEq, Prod.mk.injEq] at h
                    obtain ⟨hval, hrest⟩ := h
                    rw [← hval, ← hrest]
                | str s =>
                    simp only [] at h ⊢
                    by_cases hs0 : s = ""
                    · rw [if_pos hs0] at h
                      exact Except.noConfusion h
                    · rw [if_neg hs0] at h
                      rw [if_neg hs0]
                      by_cases hq : s.front = '"'
                      · rw [if_pos hq] at h
                        rw [if_pos hq]
                        rw [parse_str_cons] at h
                        rw [parse_str_cons]
                        simp only [Except.ok.injEq, Prod.mk.injEq] at h
                        obtain ⟨hval, hrest⟩ := h
                        rw [← hval, ← hrest]
                      · rw [if_neg hq] at h
                        exact Except.noConfusion h
      -- parse_dict
      · intro m ts r d rest hm h
        obtain ⟨m1, rfl⟩ : ∃ m1, m = m1 + 1 := ⟨m - 1, by omega⟩
        have hm1 : n ≤ m1 := by omega
        rw [parseDictF_succ] at h
        cases hc : consumeTok (Tok.str "\x7b") ts with
        | error e => rw [hc] at h; simp at h
        | ok ts1 =>
            rw [hc] at h
            simp only [] at h
            have hts := consumeTok_ok_elim hc
            subst hts
            cases hl : parseDictLoopF n [] ts1 with
            | error e => rw [hl] at h; simp at h
            | ok pr =>
                obtain ⟨d0, ts2⟩ := pr
                rw [hl] at h
                simp only [] at h
                cases hc2 : consumeTok (Tok.str "\x7d") ts2 with
                | error e => rw [hc2] at h; simp at h
                | ok ts3 =>
                    rw [hc2] at h
                    simp only [Except.ok.injEq, Prod.mk.injEq] at h
                    obtain ⟨hd0, hrest⟩ := h
                    have hts2 := consumeTok_ok_elim hc2
                    have hl2 := ihdl m1 [] ts1 r d0 ts2 hm1 hl (by rw [hts2]; simp)
                    subst hts2
                    rw [List.cons_append, parseDictF_succ, consumeTok_cons]
                    simp only []
                    rw [hl2]
                    simp only []
                    rw [List.cons_append, consumeTok_cons]
                    simp only []
                    rw [← hd0, ← hrest]
      -- parse_dict loop body
      · intro m acc ts r d rest hm h hne
        obtain ⟨m1, rfl⟩ : ∃ m1, m = m1 + 1 := ⟨m - 1, by omega⟩
        have hm1 : n ≤ m1 := by omega
        rw [parseDictLoopF_succ] at h
        cases hs : parse_str ts with
        | error e => rw [hs] at h; simp at h
        | ok pr =>
            obtain ⟨key, ts1⟩ := pr
            rw [hs] at h
            simp only [] at h
            obtain ⟨s, hts, hkey⟩ := parse_str_ok_elim hs
            subst hts
            subst hkey
            cases hc : consumeTok (Tok.str ":") ts1 with
            | error e => rw [hc] at h; simp at h
            | ok ts2 =>
                rw [hc] at h
                simp only [] at h
                have hts1 := consumeTok_ok_elim hc
                subst hts1
                cases hv : parseValueF n ts2 with
                | error e => rw [hv] at h; simp at h
                | ok pr2 =>
                    obtain ⟨v, ts3⟩ := pr2
                    rw [hv] at h
                    simp only [] at h
                    have hv2 := ihv m1 ts2 r v ts3 hm1 hv
                    simp only [List.cons_append, parseDictLoopF_succ, parse_str_cons,
                      consumeTok_cons, hv2]
                    by_cases hcm : ts3.head? = some (Tok.str ",")
                    · rw [if_pos hcm] at h
                      cases ts3 with
                      | nil => simp at hcm
                      | cons t0 ts4 =>
                          simp only [List.head?_cons, Option.some.injEq] at hcm
                          subst hcm
                          simp only [List.tail_cons] at h
                          simp only [List.cons_append, List.head?_cons, List.tail_cons,
                            if_pos rfl]
                          exact ihdl m1 (dictInsert acc (pySlice s) v) ts4 r d rest hm1 h hne
                    · rw [if_neg hcm] at h
                      simp only [Except.ok.injEq, Prod.mk.injEq] at h
                      obtain ⟨hd0, hrest⟩ := h
                      cases ts3 with
                      | nil => exact absurd hrest.symm hne
                      | cons t0 ts4 =>
                          simp only [List.head?_cons] at hcm
                          simp only [List.cons_append, List.head?_cons]
                          rw [if_neg hcm, ← hd0, ← hrest]
                          rw [List.cons_append]
      -- parse_list
      · intro m ts r a rest hm h
        obtain ⟨m1, rfl⟩ : ∃ m1, m = m1 + 1 := ⟨m - 1, by omega⟩
        have hm1 : n ≤ m1 := by omega
        rw [parseListF_succ] at h
        cases hc : consumeTok (Tok.str "[") ts with
        | error e => rw [hc] at h; simp at h
        | ok ts1 =>
            rw [hc] at h
            simp only [] at h
            have hts := consumeTok_ok_elim hc
            subst hts
            cases hl : parseListLoopF n [] ts1 with
            | error e => rw [hl] at h; simp at h
            | ok pr =>
                obtain ⟨a0, ts2⟩ := pr
                rw [hl] at h
                simp only [] at h
                cases hc2 : consumeTok (Tok.str "]") ts2 with
                | error e => rw [hc2] at h; simp at h
                | ok ts3 =>
                    rw [hc2] at h
                    simp only [Except.ok.injEq, Prod.mk.injEq] at h
                    obtain ⟨ha0, hrest⟩ := h
                    have hts2 := consumeTok_ok_elim hc2
                    have hl2 := ihll m1 [] ts1 r a0 ts2 hm1 hl (by rw [hts2]; simp)
                    subst hts2
                    rw [List.cons_append, parseListF_succ, consumeTok_cons]
                    simp only []
                    rw [hl2]
                    simp only []
                    rw [List.cons_append, consumeTok_cons]
                    simp only []
                    rw [← ha0, ← hrest]
      -- parse_list loop body
      · intro m acc ts r a rest hm h hne
        obtain ⟨m1, rfl⟩ : ∃ m1, m = m1 + 1 := ⟨m - 1, by omega⟩
        have hm1 : n ≤ m1 := by omega
        rw [parseListLoopF_succ] at h
        by_cases hrb : ts.head? = some (Tok.str "]")
        · rw [if_pos hrb] at h
          simp only [Except.ok.injEq, Prod.mk.injEq] at h
          obtain ⟨ha0, hrest⟩ := h
          cases ts with
          | nil => simp at hrb
          | cons t0 ts4 =>
              simp only [List.head?_cons] at hrb
              rw [List.cons_append, parseListLoopF_succ]
              simp only [List.head?_cons]
              rw [if_pos hrb, ← ha0, ← hrest]
              rw [List.cons_append]
        · rw [if_neg hrb] at h
          cases hv : parseValueF n ts with
          | error e => rw [hv] at h; simp at h
          | ok pr =>
              obtain ⟨v, ts1⟩ := pr
              rw [hv] at h
              simp only [] at h
              have hv2 := ihv m1 ts r v ts1 hm1 hv
              cases ts with
              | nil => exact absurd hv (parseValueF_nil_not_ok n v ts1)
              | cons t0 ts4 =>
                  simp only [List.head?_cons] at hrb
                  rw [List.cons_append, parseListLoopF_succ]
                  simp only [List.head?_cons]
                  rw [if_neg hrb]
                  rw [List.cons_append] at hv2
                  rw [hv2]
                  by_cases hcm : ts1.head? = some (Tok.str ",")
                  · rw [if_pos hcm] at h
                    cases ts1 with
                    | nil => simp at hcm
                    | cons t1 ts5 =>
                        simp only [List.head?_cons, Option.some.injEq] at hcm
                        subst hcm
                        simp only [List.tail_cons] at h
                        simp only [List.cons_append, List.head?_cons, List.tail_cons,
                          if_pos rfl]
                        exact ihll m1 (acc ++ [v]) ts5 r a rest hm1 h hne
                  · rw [if_neg hcm] at h
                    simp only [Except.ok.injEq, Prod.mk.injEq] at h
                    obtain ⟨ha0, hrest⟩ := h
                    cases ts1 with
                    | nil => exact absurd hrest.symm hne
                    | cons t1 ts5 =>
                        simp only [List.head?_cons] at hcm
                        simp only [List.cons_append, List.head?_cons]
                        rw [if_neg hcm, ← ha0, ← hrest]
                        rw [List.cons_append]



/-- A successful `parse_value` always starts at a present token, and that
token is never the punctuation `]` (every `]` falls into the
`unexpectedValue` branch of the dispatch). -/
theorem parseValueF_ok_head {n : Nat} {ts : List Tok} {v : Val} {rest : List Tok}
    (h : parseValueF n ts = .ok (v, rest)) :
    ∃ t ts2, ts = t :: ts2 ∧ t ≠ Tok.str "]" := by
  cases n with
  | zero => rw [parseValueF_zero] at h; exact Except.noConfusion h
  | succ m =>
      cases ts with
      | nil => rw [parseValueF_succ_nil] at h; exact Except.noConfusion h
      | cons t ts2 =>
          refine ⟨t, ts2, rfl, ?_⟩
          intro ht
          subst ht
          rw [parseValueF_succ_cons] at h
          rw [if_neg (by decide), if_neg (by decide)] at h
          simp only [] at h
          rw [if_neg (by decide), if_neg (by decide)] at h
          exact Except.noConfusion h

/-- Wrapping a finished element loop: `parse_list` consumes `[`, runs the
loop, and consumes the final `]`. -/
theorem listF_wrap (m : Nat) (ts : List Tok) (l : List Val)
    (h : parseListLoopF m [] ts = .ok (l, [Tok.str "]"])) :
    parseListF (m + 1) (Tok.str "[" :: ts) = .ok (l, []) := by
  rw [parseListF_succ, consumeTok_cons]
  simp only []
  rw [h]
  rfl

/-- One iteration of the element loop on a single-value stream: parse the
value, then either continue past a comma or break. -/
theorem listLoop_step (m : Nat) (t : Tok) (v2 tail : List Tok) (val : Val)
    (hne : t ≠ Tok.str "]")
    (hval : parseValueF m (t :: (v2 ++ tail)) = .ok (val, tail)) :
    parseListLoopF (m + 1) [] (t :: (v2 ++ tail)) =
      if tail.head? = some (Tok.str ",") then parseListLoopF m [val] tail.tail
      else .ok ([val], tail) := by
  rw [parseListLoopF_succ]
  simp only [List.head?_cons]
  rw [if_neg (by simp [hne])]
  rw [hval]
  simp only [List.nil_append]

/-- The element loop stops immediately when it peeks the closing `]`. -/
theorem listLoop_close (m : Nat) (acc : List Val) :
    parseListLoopF (m + 1) acc [Tok.str "]"] = .ok (acc, [Tok.str "]"]) := rfl

/-- Claim C10: a trailing comma before the closing `]` of an array is
accepted: for every token sequence `v` that `parse_value` consumes exactly
(producing `val`), parsing `[`, v, `,`, `]` succeeds with the one-element
array `[val]` and is identical to parsing `[`, v, `]`. -/
theorem claim_C10 (v : List Tok) (val : Val)
    (hv : parse_value v = .ok (val, [])) :
    parse_list ((Tok.str "[" :: v) ++ [Tok.str ",", Tok.str "]"]) = .ok ([val], []) ∧
    parse_list ((Tok.str "[" :: v) ++ [Tok.str "]"]) = .ok ([val], []) := by
  have hv1 : parseValueF (parseFuel v) v = .ok (val, []) := hv
  obtain ⟨t, v2, rfl, hne⟩ := parseValueF_ok_head hv1
  constructor
  · -- with the trailing comma
    have hval : parseValueF (2 * v2.length + 8)
        (t :: (v2 ++ [Tok.str ",", Tok.str "]"])) =
        .ok (val, [Tok.str ",", Tok.str "]"]) := by
      have hfm := (parse_frame_mono (parseFuel (t :: v2))).1 (2 * v2.length + 8)
        (t :: v2) [Tok.str ",", Tok.str "]"] val []
        (by unfold parseFuel; simp only [List.length_cons]; omega) hv1
      simpa using hfm
    have hstep := listLoop_step (2 * v2.length + 8) t v2 [Tok.str ",", Tok.str "]"]
      val hne hval
    have h9 : 2 * v2.length + 8 + 1 = 2 * v2.length + 9 := rfl
    rw [h9] at hstep
    have hloop : parseListLoopF (2 * v2.length + 9) []
        (t :: (v2 ++ [Tok.str ",", Tok.str "]"])) = .ok ([val], [Tok.str "]"]) := by
      rw [hstep]
      simp only [List.head?_cons, List.tail_cons, if_pos rfl]
      exact listLoop_close (2 * v2.length + 7) [val]
    have hwrap := listF_wrap (2 * v2.length + 9)
      (t :: (v2 ++ [Tok.str ",", Tok.str "]"])) [val] hloop
    have hlen : parseFuel (Tok.str "[" :: (t :: (v2 ++ [Tok.str ",", Tok.str "]"]))) =
        2 * v2.length + 9 + 1 := by
      unfold parseFuel
      simp only [List.length_cons, List.length_append, List.length_nil]
      omega
    unfold parse_list
    simp only [List.cons_append]
    rw [hlen]
    exact hwrap
  · -- without the trailing comma
    have hval : parseValueF (2 * v2.length + 6)
        (t :: (v2 ++ [Tok.str "]"])) = .ok (val, [Tok.str "]"]) := by
      have hfm := (parse_frame_mono (parseFuel (t :: v2))).1 (2 * v2.length + 6)
        (t :: v2) [Tok.str "]"] val []
        (by unfold parseFuel; simp only [List.length_cons]; omega) hv1
      simpa using hfm
    have hstep := listLoop_step (2 * v2.length + 6) t v2 [Tok.str "]"] val hne hval
    have h7 : 2 * v2.length + 6 + 1 = 2 * v2.length + 7 := rfl
    rw [h7] at hstep
    have hloop : parseListLoopF (2 * v2.length + 7) []
        (t :: (v2 ++ [Tok.str "]"])) = .ok ([val], [Tok.str "]"]) := by
      rw [hstep]
      simp only [List.head?_cons]
      rw [if_neg (by decide)]
    have hwrap := listF_wrap (2 * v2.length + 7)
      (t :: (v2 ++ [Tok.str "]"])) [val] hloop
    have hlen : parseFuel (Tok.str "[" :: (t :: (v2 ++ [Tok.str "]"]))) =
        2 * v2.length + 7 + 1 := by
      unfold parseFuel
      simp only [List.length_cons, List.length_append, List.length_nil]
      omega
    unfold parse_list
    simp only [List.cons_append]
    rw [hlen]
    exact hwrap

/-- Claim C10 witness at the concrete value token sequence `[1]`. -/
theorem claim_C10_witness :
    parse_list [Tok.str "[", Tok.int 1, Tok.str ",", Tok.str "]"] =
      .ok ([Val.int 1], []) ∧
    parse_list [Tok.str "[", Tok.int 1, Tok.str "]"] = .ok ([Val.int 1], []) :=
  claim_C10 [Tok.int 1] (Val.int 1) rfl

/-- Claim C1: the spec says a number scan that reaches end of input stops
there and the number becomes the final token; the code instead calls
`None.isnumeric()` and dies with `AttributeError`.  Witnessed by input
`5`; input `5 ` (trailing blank) shows the intended behaviour. -/
theorem claim_C1 :
    tokenize "5" = .error .attributeError ∧ tokenize "5 " = .ok [Tok.int 5] :=
  ⟨rfl, rfl⟩

/-- Claim C2: on `[1]2` the pipeline dies inside `tokenize` with the
`AttributeError` of claim C1 and never reports TrailingTokens; given the
intended token stream of `[1]2` (or the input `[1]2 `, which tokenizes),
`parse` does fail with the trailing-tokens error. -/
theorem claim_C2 :
    parseDocument "[1]2" = .error .attributeError ∧
    parse [Tok.str "[", Tok.int 1, Tok.str "]", Tok.int 2] =
      .error (.trailingTokens (Tok.int 2)) ∧
    parseDocument "[1]2 " = .error (.trailingTokens (Tok.int 2)) :=
  ⟨rfl, rfl, rfl⟩

/-- Claim C4: parsing the token stream of an empty object does not return
an empty mapping: the `\x7d` token is consumed as a string key and
quote-stripped to the empty string, and the parse then raises `IndexError`
when `consume(":")` reads past the end. -/
theorem claim_C4 :
    parse_str [Tok.str "\x7d"] = .ok ("", []) ∧
    parse [Tok.str "\x7b", Tok.str "\x7d"] = .error .indexError :=
  ⟨rfl, rfl⟩

/-- Inserting the same key twice into the ordered dict keeps only the
later value, in the position of the first insertion. -/
theorem dictInsert_dictInsert (d : List (String × Val)) (k : String) (v1 v2 : Val) :
    dictInsert (dictInsert d k v1) k v2 = dictInsert d k v2 := by
  induction d with
  | nil => simp [dictInsert]
  | cons kv rest ih =>
      obtain ⟨k0, v0⟩ := kv
      by_cases hk : k0 = k
      · subst hk
        simp [dictInsert]
      · simp [dictInsert, hk, ih]

/-- Claim C5: a repeated object key overwrites the earlier value in place
(last-write-wins, first-seen position, no error): the full pipeline on the
text of `(open)"a":1,"a":2(close)` yields the single-entry object `a = 2`,
and repeated insertion of a key equals a single insertion of the later
value. -/
theorem claim_C5 :
    parseDocument "\x7b\"a\":1,\"a\":2\x7d" = .ok (.obj [("a", Val.int 2)]) ∧
    ∀ (d : List (String × Val)) (k : String) (v1 v2 : Val),
      dictInsert (dictInsert d k v1) k v2 = dictInsert d k v2 :=
  ⟨rfl, dictInsert_dictInsert⟩

/-- Claim C9: `peek` returns the element at the cursor when the cursor is
strictly before the end, the not-present signal `none` when it is at or
past the end, and (being a pure function of the state) neither fails nor
changes the position. -/
theorem claim_C9 (α : Type) (d : List α) (c : Nat) :
    (∀ h : c < d.length, Stream.peek ⟨d, c⟩ = some (d.get ⟨c, h⟩)) ∧
    (d.length ≤ c → Stream.peek ⟨d, c⟩ = none) := by
  constructor
  · intro h
    unfold Stream.peek
    rw [dif_pos h]
  · intro h
    unfold Stream.peek
    rw [dif_neg (by simp only []; omega)]

/-- Claim C9 witness on the stream `[10, 20]` at cursors 1 and 5. -/
theorem claim_C9_witness :
    Stream.peek (⟨[10, 20], 1⟩ : Stream Nat) = some 20 ∧
    Stream.peek (⟨[10, 20], 5⟩ : Stream Nat) = none :=
  ⟨(claim_C9 Nat [10, 20] 1).1 (by decide), (claim_C9 Nat [10, 20] 5).2 (by decide)⟩

/-- Claim C7: when the number scan peeks a `.` while the float flag is
already set, it fails with `invalidNumber` at the current cursor (the
position of that second dot); on `1.2.3` the second dot sits at index 3
and tokenize reports exactly that position. -/
theorem claim_C7 :
    (∀ (n : Nat) (st : Stream Char) (acc : List Char),
      Stream.peek st = some '.' →
      tokNumGoF (n + 1) acc true st = .error (.invalidNumber st.cursor)) ∧
    tokenize "1.2.3" = .error (.invalidNumber 3) := by
  constructor
  · intro n st acc hp
    simp [tokNumGoF, hp, py_isnumeric]
  · rfl

/-- Claim C7 witness: a stream whose next character is a dot, scanned with
the float flag set, errors at the cursor (here 0). -/
theorem claim_C7_witness :
    tokNumGoF 1 [] true ⟨['.'], 0⟩ = .error (.invalidNumber 0) :=
  claim_C7.1 0 ⟨['.'], 0⟩ [] rfl

/-- Claim C3, amended: `parse_value` on a present, nonempty string token
other than `\x7b`, `[`, or a quoted literal fails with `unexpectedValue`
reporting that token; on an exhausted stream it instead fails with the
`TypeError` of subscripting `None` (and never with `unexpectedValue`).
Number tokens and quoted string tokens are parsed, not rejected. -/
theorem claim_C3 :
    (∀ (ts : List Tok) (s : String),
      ts.head? = some (Tok.str s) → s ≠ "\x7b" → s ≠ "[" → s ≠ "" →
      s.front ≠ '"' →
      parse_value ts = .error (.unexpectedValue (.str s))) ∧
    parse_value ([] : List Tok) = .error .typeError := by
  constructor
  · intro ts s hh h1 h2 h3 h4
    cases ts with
    | nil => simp at hh
    | cons t ts2 =>
        simp only [List.head?_cons, Option.some.injEq] at hh
        subst hh
        show parseValueF (parseFuel (Tok.str s :: ts2)) (Tok.str s :: ts2) = _
        have hf : parseFuel (Tok.str s :: ts2) = (2 * ts2.length + 3) + 1 := by
          unfold parseFuel
          simp only [List.length_cons]
          omega
        rw [hf, parseValueF_succ_cons]
        rw [if_neg (by simp [h1]), if_neg (by simp [h2])]
        simp only []
        rw [if_neg h3, if_neg h4]
  · rfl

/-- Claim C3 counterexample to the exhausted-stream part of the original
claim: on the empty token stream `parse_value` raises `TypeError`
(`None` is unsubscriptable), not `unexpectedValue`. -/
theorem claim_C3_counterexample :
    parse_value ([] : List Tok) = .error .typeError ∧
    ∀ t : Tok, parse_value ([] : List Tok) ≠ .error (.unexpectedValue t) := by
  refine ⟨rfl, ?_⟩
  intro t h
  rw [show parse_value ([] : List Tok) = .error .typeError from rfl] at h
  exact Err.noConfusion (Except.error.inj h)

/-- Claim C3 witness: the punctuation token `:` is rejected with
`unexpectedValue`. -/
theorem claim_C3_witness :
    parse_value [Tok.str ":"] = .error (.unexpectedValue (.str ":")) :=
  claim_C3.1 [Tok.str ":"] ":" rfl (by decide) (by decide) (by decide) (by decide)

/-- Claim C8: a token stream that is empty or does not start with `\x7b`
or `[` makes `parse` fail, and consequently every value returned by a
successful `parse` is an object or an array, never a bare scalar. -/
theorem claim_C8 :
    (∀ ts : List Tok,
      ts.head? ≠ some (Tok.str "\x7b") → ts.head? ≠ some (Tok.str "[") →
      ∃ e, parse ts = .error e) ∧
    (∀ (ts : List Tok) (v : Val), parse ts = .ok v →
      (∃ d, v = Val.obj d) ∨ (∃ l, v = Val.arr l)) := by
  constructor
  · intro ts h1 h2
    refine ⟨.topLevelUnexpected, ?_⟩
    unfold parse parseTop
    rw [if_neg h1, if_neg h2]
  · intro ts v h
    unfold parse parseTop at h
    by_cases h1 : ts.head? = some (Tok.str "\x7b")
    · rw [if_pos h1] at h
      cases hd : parse_dict ts with
      | error e => rw [hd] at h; simp at h
      | ok pr =>
          obtain ⟨d, rest⟩ := pr
          rw [hd] at h
          simp only [] at h
          cases rest with
          | nil =>
              simp only [Except.ok.injEq] at h
              exact Or.inl ⟨d, h.symm⟩
          | cons t0 rest2 => simp at h
    · rw [if_neg h1] at h
      by_cases h2 : ts.head? = some (Tok.str "[")
      · rw [if_pos h2] at h
        cases hl : parse_list ts with
        | error e => rw [hl] at h; simp at h
        | ok pr =>
            obtain ⟨l, rest⟩ := pr
            rw [hl] at h
            simp only [] at h
            cases rest with
            | nil =>
                simp only [Except.ok.injEq] at h
                exact Or.inr ⟨l, h.symm⟩
            | cons t0 rest2 => simp at h
      · rw [if_neg h2] at h
        simp at h

/-- Claim C8 witness: the scalar stream `[5]` is rejected at the top
level, and the empty-array parse is classified as an array. -/
theorem claim_C8_witness :
    (∃ e, parse [Tok.int 5] = .error e) ∧
    ((∃ d, Val.arr ([] : List Val) = Val.obj d) ∨
      (∃ l, Val.arr ([] : List Val) = Val.arr l)) :=
  ⟨claim_C8.1 [Tok.int 5] (by decide) (by decide),
   claim_C8.2 [Tok.str "[", Tok.str "]"] (Val.arr []) rfl⟩

/-- The string-literal scan raises `IndexError` when no quote character
occurs at or after the cursor: `stream.next()` eventually falls off the
end. -/
theorem tokStrGoF_no_quote :
    ∀ (n : Nat) (st : Stream Char) (acc : List Char),
      st.data.length - st.cursor < n →
      (∀ j (hj : j < st.data.length), st.cursor ≤ j → st.data.get ⟨j, hj⟩ ≠ '"') →
      tokStrGoF n acc st = .error .indexError := by
  intro n
  induction n with
  | zero => intro st acc h _; omega
  | succ n ih =>
      intro st acc h hq
      by_cases hc : st.cursor < st.data.length
      · have hnext : st.next = .ok (st.data.get ⟨st.cursor, hc⟩,
            ⟨st.data, st.cursor + 1⟩) := by
          unfold Stream.next
          rw [dif_pos hc]
        simp only [tokStrGoF, hnext]
        rw [if_neg (hq st.cursor hc le_rfl)]
        apply ih
        · show st.data.length - (st.cursor + 1) < n
          omega
        · intro j hj hcj
          have hcj2 : st.cursor + 1 ≤ j := hcj
          exact hq j hj (by omega)
      · have hnext : st.next = .error .indexError := by
          unfold Stream.next
          rw [dif_neg hc]
        simp only [tokStrGoF, hnext]

/-- Successful `peek` exposes the cursor bound and the peeked element. -/
theorem peek_some_elim {α : Type} {st : Stream α} {c : α} (h : st.peek = some c) :
    ∃ hc : st.cursor < st.data.length, st.data.get ⟨st.cursor, hc⟩ = c := by
  unfold Stream.peek at h
  by_cases hc : st.cursor < st.data.length
  · rw [dif_pos hc] at h
    exact ⟨hc, Option.some.inj h⟩
  · rw [dif_neg hc] at h
    exact Option.noConfusion h

/-- `tokenize_str` on a stream positioned at an opening quote with no
further quote anywhere after it fails with `IndexError` (OutOfBounds). -/
theorem tokenize_str_unterminated (st : Stream Char)
    (hp : st.peek = some '"')
    (hq : ∀ j (hj : j < st.data.length), st.cursor + 1 ≤ j →
      st.data.get ⟨j, hj⟩ ≠ '"') :
    tokenize_str st = .error .indexError := by
  obtain ⟨hc, hg⟩ := peek_some_elim hp
  have hnext : st.next = .ok ('"', ⟨st.data, st.cursor + 1⟩) := by
    unfold Stream.next
    rw [dif_pos hc, hg]
  have hcons : consume '"' st = .ok ⟨st.data, st.cursor + 1⟩ := by
    unfold consume
    rw [hnext]
    simp
  unfold tokenize_str
  rw [hcons]
  apply tokStrGoF_no_quote
  · show st.data.length - (st.cursor + 1) < st.data.length + 1
    omega
  · intro j hj hcj
    exact hq j hj hcj

/-- `skip_whitespace` does nothing when the peeked character is not
whitespace. -/
theorem skip_whitespace_nows (st : Stream Char) (c : Char) (hp : st.peek = some c)
    (hns : py_isspace c = false) : skip_whitespace st = st := by
  unfold skip_whitespace
  simp [skipWsF, hp, hns]

/-- Claim C6: a string literal opened by `"` with no closing `"` anywhere
before the end of the input makes the scan run off the end: `tokenize_str`
fails with `IndexError` (OutOfBounds) from any such stream state, and so
does `tokenize` on any input text that opens an unterminated literal
(stated for inputs beginning with the quote, e.g. `"abc`). -/
theorem claim_C6 :
    (∀ st : Stream Char, st.peek = some '"' →
      (∀ j (hj : j < st.data.length), st.cursor + 1 ≤ j →
        st.data.get ⟨j, hj⟩ ≠ '"') →
      tokenize_str st = .error .indexError) ∧
    (∀ cs : List Char, '"' ∉ cs →
      tokenize (String.mk ('"' :: cs)) = .error .indexError) := by
  constructor
  · exact tokenize_str_unterminated
  · intro cs hq
    have hq2 : ∀ j (hj : j < ('"' :: cs).length), 0 + 1 ≤ j →
        ('"' :: cs).get ⟨j, hj⟩ ≠ '"' := by
      intro j hj h1
      have h1b : 1 ≤ j := h1
      cases j with
      | zero => omega
      | succ j1 =>
          intro hcontra
          apply hq
          have hj1 : j1 < cs.length := by
            have hjj : j1 + 1 < cs.length + 1 := hj
            omega
          have hgg : ('"' :: cs).get ⟨j1 + 1, hj⟩ = cs.get ⟨j1, hj1⟩ := rfl
          rw [hgg] at hcontra
          rw [← hcontra]
          exact List.get_mem cs j1 hj1
    have hpk : (⟨'"' :: cs, 0⟩ : Stream Char).peek = some '"' := by
      unfold Stream.peek
      rw [dif_pos (by simp only [List.length_cons]; omega)]
      rfl
    have hst : tokenize_str (⟨'"' :: cs, 0⟩ : Stream Char) = .error .indexError :=
      tokenize_str_unterminated ⟨'"' :: cs, 0⟩ hpk hq2
    have hsw : skip_whitespace (⟨'"' :: cs, 0⟩ : Stream Char) = ⟨'"' :: cs, 0⟩ :=
      skip_whitespace_nows _ '"' hpk (by decide)
    show tokenizeF (('"' :: cs).length + 1) ⟨'"' :: cs, 0⟩ = .error .indexError
    simp only [tokenizeF]
    rw [hsw, hpk]
    simp [hst, isPunct, py_isnumeric]

/-- Claim C6 witness: the input `"abc` fails with `IndexError`. -/
theorem claim_C6_witness :
    tokenize (String.mk ['"', 'a', 'b', 'c']) = .error .indexError :=
  claim_C6.2 ['a', 'b', 'c'] (by decide)

end Jerry
